import Mathlib

/-
Verification of the DynamoDB emulation core of mockaws
(src/src/dynamodb-handler.ts together with the schema in src/src/database.ts).

The handler operates on parsed JSON request bodies and a SQLite table
dynamodb_items (table_name, item_key, item_data, created_at, updated_at)
with PRIMARY KEY (table_name, item_key).  We embed:

  - JSON values (the parsed request/item documents) as JsonValue;
    a JS object is a list of fields in insertion order;
  - the dynamodb_items table as a list of Rec (the primary key makes the
    physical row order irrelevant: point reads go through an exact-match
    lookup and list reads sort by item_key, which we reproduce);
  - JSON.stringify as jsonStringify (JS integers print like Lean integers;
    the documents in scope carry integer numbers);
  - each prepared statement and each handler method as a function of the
    explicit store plus the request fields it destructures, with the
    current time Date.now() passed as an explicit argument.
-/

set_option autoImplicit false

/-- A parsed JSON value.  Objects keep their fields in insertion order,
which is the order JSON.stringify serializes them in. -/
inductive JsonValue where
  | null : JsonValue
  | bool (b : Bool) : JsonValue
  | num (n : Int) : JsonValue
  | str (s : String) : JsonValue
  | arr (xs : List JsonValue) : JsonValue
  | obj (fields : List (String × JsonValue)) : JsonValue
  deriving Repr

mutual

def beqJson : JsonValue → JsonValue → Bool
  | .null, .null => true
  | .bool a, .bool b => a == b
  | .num a, .num b => a == b
  | .str a, .str b => a == b
  | .arr a, .arr b => beqJsonList a b
  | .obj a, .obj b => beqJsonFields a b
  | _, _ => false

def beqJsonList : List JsonValue → List JsonValue → Bool
  | [], [] => true
  | x :: xs, y :: ys => beqJson x y && beqJsonList xs ys
  | _, _ => false

def beqJsonFields : List (String × JsonValue) → List (String × JsonValue) → Bool
  | [], [] => true
  | (k, v) :: xs, (k2, v2) :: ys => k == k2 && beqJson v v2 && beqJsonFields xs ys
  | _, _ => false

end

mutual

theorem beqJson_iff : ∀ a b : JsonValue, beqJson a b = true ↔ a = b
  | .null, b => by cases b <;> simp [beqJson]
  | .bool a, b => by cases b <;> simp [beqJson]
  | .num a, b => by cases b <;> simp [beqJson]
  | .str a, b => by cases b <;> simp [beqJson]
  | .arr a, b => by cases b <;> simp [beqJson, beqJsonList_iff a _]
  | .obj a, b => by cases b <;> simp [beqJson, beqJsonFields_iff a _]

theorem beqJsonList_iff : ∀ a b : List JsonValue, beqJsonList a b = true ↔ a = b
  | [], b => by cases b <;> simp [beqJsonList]
  | x :: xs, b => by
      cases b with
      | nil => simp [beqJsonList]
      | cons y ys => simp [beqJsonList, beqJson_iff x y, beqJsonList_iff xs ys]

theorem beqJsonFields_iff : ∀ a b : List (String × JsonValue), beqJsonFields a b = true ↔ a = b
  | [], b => by cases b <;> simp [beqJsonFields]
  | (k, v) :: xs, b => by
      cases b with
      | nil => simp [beqJsonFields]
      | cons y ys =>
          obtain ⟨k2, v2⟩ := y
          simp [beqJsonFields, beqJson_iff v v2, beqJsonFields_iff xs ys, and_assoc]

end

instance : DecidableEq JsonValue := fun a b => decidable_of_iff _ (beqJson_iff a b)

/-- A JS object (a parsed JSON document): fields in insertion order.
Request items, key descriptors and the ExpressionAttributeValues map all
have this shape. -/
abbrev ItemObj := List (String × JsonValue)

/-- The ExpressionAttributeNames map (string-to-string object on the wire). -/
abbrev AttrNames := List (String × String)

/-- Property read obj[name] on a JS object: absent gives none (undefined). -/
def getField (o : ItemObj) (name : String) : Option JsonValue :=
  (o.find? (fun p => p.1 == name)).map (·.2)

/-- Property read on the ExpressionAttributeNames object. -/
def getNameField (o : AttrNames) (name : String) : Option String :=
  (o.find? (fun p => p.1 == name)).map (·.2)

/-- JS truthiness of a JSON value: null, false, 0 and the empty string are
falsy; every array or object is truthy. -/
def truthy : JsonValue → Bool
  | .null => false
  | .bool b => b
  | .num n => n != 0
  | .str s => s != ""
  | .arr _ => true
  | .obj _ => true

/-- JS truthiness of a possibly-undefined value (undefined is falsy). -/
def truthyOpt : Option JsonValue → Bool
  | none => false
  | some v => truthy v

/-- Hexadecimal digit (lowercase), as produced by JSON.stringify's
control-character escapes. -/
def hexDigitChar (n : Nat) : Char :=
  if n < 10 then Char.ofNat ('0'.toNat + n) else Char.ofNat ('a'.toNat + n - 10)

/-- JSON string escaping of one character, following JSON.stringify. -/
def jsonEscapeChar (c : Char) : List Char :=
  if c = '"' then ['\\', '"']
  else if c = '\\' then ['\\', '\\']
  else if c = '\x08' then ['\\', 'b']
  else if c = '\t' then ['\\', 't']
  else if c = '\n' then ['\\', 'n']
  else if c = '\x0c' then ['\\', 'f']
  else if c = '\r' then ['\\', 'r']
  else if c.toNat < 32 then
    ['\\', 'u', '0', '0', hexDigitChar (c.toNat / 16), hexDigitChar (c.toNat % 16)]
  else [c]

/-- JSON serialization of a string, quotes included. -/
def jsonQuote (s : String) : String :=
  "\"" ++ String.mk (s.data.flatMap jsonEscapeChar) ++ "\""

mutual

/-- JSON.stringify on a parsed JSON value. -/
def jsonStringify : JsonValue → String
  | .null => "null"
  | .bool b => if b then "true" else "false"
  | .num n => toString n
  | .str s => jsonQuote s
  | .arr xs => "[" ++ jsonStringifyElems xs ++ "]"
  | .obj fs => "\x7b" ++ jsonStringifyMembers fs ++ "\x7d"

def jsonStringifyElems : List JsonValue → String
  | [] => ""
  | [x] => jsonStringify x
  | x :: y :: xs => jsonStringify x ++ "," ++ jsonStringifyElems (y :: xs)

def jsonStringifyMembers : List (String × JsonValue) → String
  | [] => ""
  | [(k, v)] => jsonQuote k ++ ":" ++ jsonStringify v
  | (k, v) :: f :: fs =>
      jsonQuote k ++ ":" ++ jsonStringify v ++ "," ++ jsonStringifyMembers (f :: fs)

end

/-- JSON.stringify on a JS object (a document or key descriptor). -/
def stringifyObj (o : ItemObj) : String :=
  "\x7b" ++ jsonStringifyMembers o ++ "\x7d"

/-- The canonical key-attribute object built by generateItemKey
(dynamodb-handler.ts lines 54-72): copy item.$p and item.$s when defined,
and copy item.id when it is defined and keyAttrs.$p is falsy (absent or a
falsy copied value). -/
def generateItemKeyObj (item : ItemObj) : ItemObj :=
  let pv := getField item "$p"
  let sv := getField item "$s"
  let iv := getField item "id"
  (match pv with
   | some v => [("$p", v)]
   | none => []) ++
  (match sv with
   | some v => [("$s", v)]
   | none => []) ++
  (match iv with
   | some v => if truthyOpt pv then [] else [("id", v)]
   | none => [])

/-- generateItemKey (dynamodb-handler.ts lines 54-72): the stored item_key
string, JSON.stringify of the extracted key-attribute object. -/
def generateItemKey (item : ItemObj) : String :=
  stringifyObj (generateItemKeyObj item)

/-- extractKeyFromItem (dynamodb-handler.ts lines 384-397): the key
attributes of an item, in the order id, $p, $s, used to build
LastEvaluatedKey. -/
def extractKeyFromItem (item : ItemObj) : ItemObj :=
  (match getField item "id" with
   | some v => [("id", v)]
   | none => []) ++
  (match getField item "$p" with
   | some v => [("$p", v)]
   | none => []) ++
  (match getField item "$s" with
   | some v => [("$s", v)]
   | none => [])

/-- A row of the dynamodb_items table (database.ts lines 33-42).
item_data is stored as the JSON text of the document; since documents in
scope round-trip through JSON.parse/JSON.stringify unchanged, we keep the
parsed document itself. -/
structure Rec where
  table : String
  key : String
  data : ItemObj
  created : Nat
  updated : Nat
  deriving Repr, DecidableEq

/-- The dynamodb_items table contents.  PRIMARY KEY (table_name, item_key)
makes physical row order unobservable: reads are exact-match lookups or
ORDER BY item_key, both modelled below. -/
abbrev DB := List Rec

/-- Row predicate of the WHERE table_name = ? AND item_key = ? clauses. -/
def recMatches (t k : String) (r : Rec) : Bool :=
  r.table == t && r.key == k

/-- The putItem prepared statement (dynamodb-handler.ts lines 23-26):
INSERT OR REPLACE removes any row with the same primary key and inserts
the new row. -/
def putItem (db : DB) (t k : String) (data : ItemObj) (created updated : Nat) : DB :=
  db.filter (fun r => !recMatches t k r) ++ [⟨t, k, data, created, updated⟩]

/-- The getItem prepared statement (dynamodb-handler.ts lines 28-32):
point read by (table_name, item_key). -/
def getItem (db : DB) (t k : String) : Option Rec :=
  db.find? (recMatches t k)

/-- The deleteItem prepared statement (dynamodb-handler.ts lines 34-37). -/
def deleteItem (db : DB) (t k : String) : DB :=
  db.filter (fun r => !recMatches t k r)

/-- Lexicographic order on character lists, by code point; on the ASCII
strings in scope this is exactly SQLite's binary text order. -/
def charsLe : List Char → List Char → Bool
  | [], _ => true
  | _ :: _, [] => false
  | a :: as, b :: bs => if a == b then charsLe as bs else decide (a < b)

/-- Ascending order on item_key strings (SQLite ORDER BY item_key). -/
def keyLe (a b : Rec) : Bool :=
  charsLe a.key.data b.key.data

def orderedInsert (x : Rec) : List Rec → List Rec
  | [] => [x]
  | y :: ys => if keyLe x y then x :: y :: ys else y :: orderedInsert x ys

/-- Sort rows by ascending item_key (insertion sort, total and stable). -/
def sortByKey : List Rec → List Rec
  | [] => []
  | x :: xs => orderedInsert x (sortByKey xs)

/-- ASCII case folding: SQLite's LIKE is case-insensitive for the ASCII
range only. -/
def likeFold (c : Char) : Char := c.toLower

/-- SQLite LIKE (no ESCAPE clause): percent matches any run of characters,
underscore matches exactly one, everything else matches itself up to ASCII
case folding. -/
def likeMatch : List Char → List Char → Bool
  | [], t => t.isEmpty
  | '%' :: ps, t => (t.tails).any (fun s => likeMatch ps s)
  | _ :: _, [] => false
  | p :: ps, c :: ts => (p == '_' || likeFold p == likeFold c) && likeMatch ps ts

/-- The queryItems prepared statement (dynamodb-handler.ts lines 39-44):
rows of the table whose item_key matches the LIKE pattern, ordered by
item_key. -/
def queryItems (db : DB) (t pattern : String) : List Rec :=
  sortByKey (db.filter (fun r => r.table == t && likeMatch pattern.data r.key.data))

/-- The scanItems prepared statement (dynamodb-handler.ts lines 46-51):
all rows of the table ordered by item_key. -/
def scanItems (db : DB) (t : String) : List Rec :=
  sortByKey (db.filter (fun r => r.table == t))

/-- handlePutItem (dynamodb-handler.ts lines 149-164): derive the key from
the item and INSERT OR REPLACE with created_at = updated_at = now. -/
def handlePutItem (db : DB) (tableName : String) (item : ItemObj) (now : Nat) : DB :=
  putItem db tableName (generateItemKey item) item now now

/-- handleGetItem (dynamodb-handler.ts lines 166-187): derive the key from
the key descriptor and do a point read; absent gives an empty response
(modelled as none), present gives the parsed item_data. -/
def handleGetItem (db : DB) (tableName : String) (key : ItemObj) : Option ItemObj :=
  (getItem db tableName (generateItemKey key)).map (·.data)

/-- handleDeleteItem (dynamodb-handler.ts lines 247-260): derive the key
and delete the row; always answers with an empty success body. -/
def handleDeleteItem (db : DB) (tableName : String) (key : ItemObj) : DB :=
  deleteItem db tableName (generateItemKey key)

/-- JS regex whitespace class (the ASCII members). -/
def jsWhitespace (c : Char) : Bool :=
  c == ' ' || c == '\t' || c == '\n' || c == '\r' || c == '\x0b' || c == '\x0c'

/-- JS regex word-character class A-Z a-z 0-9 underscore. -/
def isWordChar (c : Char) : Bool :=
  (decide ('a' ≤ c) && decide (c ≤ 'z')) ||
  (decide ('A' ≤ c) && decide (c ≤ 'Z')) ||
  (decide ('0' ≤ c) && decide (c ≤ '9')) || c == '_'

/-- JS String.prototype.split on a one-character separator. -/
def splitOnChar (sep : Char) : List Char → List (List Char)
  | [] => [[]]
  | c :: rest =>
    match splitOnChar sep rest with
    | [] => [[c]]
    | h :: t => if c == sep then [] :: h :: t else (c :: h) :: t

/-- JS String.prototype.trim. -/
def trimChars (s : List Char) : List Char :=
  ((s.dropWhile jsWhitespace).reverse.dropWhile jsWhitespace).reverse

/-- Attempt of the regex tail after a literal SET: one-or-more whitespace
characters then a greedy one-or-more run of non-newline characters, with
the backtracking the regex engine performs when the whitespace run reaches
the end of the string. -/
def trySetTail (rest : List Char) : Option (List Char) :=
  let w := rest.takeWhile jsWhitespace
  let r := rest.dropWhile jsWhitespace
  if w.isEmpty then none
  else if !r.isEmpty then some (r.takeWhile (fun c => c != '\n'))
  else if 2 ≤ w.length then
    match w.getLast? with
    | some c => if c == '\n' then none else some [c]
    | none => none
  else none

/-- First match of the regex SET whitespace-plus greedy-dot-plus over the
expression (the capture group), scanning start positions left to right. -/
def findSetCapture : List Char → Option (List Char)
  | [] => none
  | 'S' :: rest =>
    (match rest with
     | 'E' :: 'T' :: rest2 =>
       (match trySetTail rest2 with
        | some cap => some cap
        | none => findSetCapture rest)
     | _ => findSetCapture rest)
  | _ :: rest => findSetCapture rest

/-- JS property write item[name] = v: replace the value in place when the
name is present, append the field otherwise. -/
def setAttr (o : ItemObj) (name : String) (v : JsonValue) : ItemObj :=
  if o.any (fun p => p.1 == name) then
    o.map (fun p => if p.1 == name then (name, v) else p)
  else o ++ [(name, v)]

/-- One SET assignment (dynamodb-handler.ts lines 214-228 and the verbatim
copy at lines 422-436): trim, split on the equals sign, require exactly
two nonempty parts, resolve a leading-hash target through
ExpressionAttributeNames (falling back to the verbatim target), and assign
only when the value map is present and holds a truthy value under the
source placeholder. -/
def applyAssignment (exprNames : Option AttrNames) (exprValues : Option ItemObj)
    (item : ItemObj) (assignment : List Char) : ItemObj :=
  match splitOnChar '=' (trimChars assignment) with
  | [p0, p1] =>
    if p0.isEmpty || p1.isEmpty then item
    else
      let attrName0 := String.mk (trimChars p0)
      let valueKey := String.mk (trimChars p1)
      let attrName :=
        match exprNames with
        | some nm =>
          if attrName0.data.head? == some '#' then
            match getNameField nm attrName0 with
            | some s => if s == "" then attrName0 else s
            | none => attrName0
          else attrName0
        | none => attrName0
      match exprValues with
      | some vm =>
        (match getField vm valueKey with
         | some v => if truthy v then setAttr item attrName v else item
         | none => item)
      | none => item
  | _ => item

/-- The SET-clause interpreter shared verbatim by handleUpdateItem
(dynamodb-handler.ts lines 209-231) and the transactional Update
(lines 417-439).  The includes-SET guard is subsumed by the regex match:
a match implies the substring occurs, and when the substring occurs but
the regex fails the document is left unchanged on both paths. -/
def applySetAssignments (item : ItemObj) (updateExpression : Option String)
    (exprNames : Option AttrNames) (exprValues : Option ItemObj) : ItemObj :=
  match updateExpression with
  | none => item
  | some e =>
    if e == "" then item
    else
      match findSetCapture e.data with
      | none => item
      | some cap => (splitOnChar ',' cap).foldl (applyAssignment exprNames exprValues) item

/-- Outcome of an UpdateItem call: the ResourceNotFoundException error
body (status 400) or the success body carrying the updated document as
Attributes. -/
inductive UpdateResult where
  | resourceNotFound : UpdateResult
  | ok (attributes : ItemObj) : UpdateResult
  deriving Repr, DecidableEq

/-- handleUpdateItem (dynamodb-handler.ts lines 189-245): derive the key
from the key descriptor; a missing row answers ResourceNotFoundException
before any write; otherwise apply the SET assignments to the stored
document and INSERT OR REPLACE it with created_at = updated_at = the
current time, answering with the updated document. -/
def handleUpdateItem (db : DB) (tableName : String) (key : ItemObj)
    (updateExpression : Option String) (exprValues : Option ItemObj)
    (exprNames : Option AttrNames) (now : Nat) : DB × UpdateResult :=
  let itemKey := generateItemKey key
  match getItem db tableName itemKey with
  | none => (db, .resourceNotFound)
  | some existing =>
    let item := applySetAssignments existing.data updateExpression exprNames exprValues
    (putItem db tableName itemKey item now now, .ok item)

structure QueryResponse where
  Items : List ItemObj
  Count : Nat
  ScannedCount : Nat
  LastEvaluatedKey : Option ItemObj
  deriving Repr, DecidableEq

/-- First match of the regex hash-p whitespace-star equals whitespace-star
colon word-plus (dynamodb-handler.ts line 269), returning the captured
word. -/
def scanPartitionKey : List Char → Option String
  | [] => none
  | c :: rest =>
    if c == '#' then
      match rest with
      | 'p' :: r0 =>
        (match r0.dropWhile jsWhitespace with
         | '=' :: r2 =>
           (match r2.dropWhile jsWhitespace with
            | ':' :: r4 =>
              let w := r4.takeWhile isWordChar
              if w.isEmpty then scanPartitionKey rest else some (String.mk w)
            | _ => scanPartitionKey rest)
         | _ => scanPartitionKey rest)
      | _ => scanPartitionKey rest
    else scanPartitionKey rest

/-- First match of the fallback regex colon word-plus
(dynamodb-handler.ts line 282), returning the captured word. -/
def scanColonWord : List Char → Option String
  | [] => none
  | c :: rest =>
    if c == ':' then
      let w := rest.takeWhile isWordChar
      if w.isEmpty then scanColonWord rest else some (String.mk w)
    else scanColonWord rest

/-- The LIKE pattern handleQuery computes from the key condition
(dynamodb-handler.ts lines 265-292): a partition-key condition yields the
serialized partial key with its closing brace replaced by a percent sign;
otherwise the first colon placeholder's value, wrapped in percent signs;
with a catch-all percent fallback. -/
def querySearchPattern (kce : Option String) (exprValues : Option ItemObj) : String :=
  match kce, exprValues with
  | some e, some vals =>
    if e == "" then "%"
    else
      (match scanPartitionKey e.data with
       | some cap =>
         (match getField vals (":" ++ cap) with
          | some keyValue =>
            if truthy keyValue then
              String.mk (stringifyObj [("$p", keyValue)]).data.dropLast ++ "%"
            else "%"
          | none => "%")
       | none =>
         (match scanColonWord e.data with
          | some cap =>
            (match getField vals (":" ++ cap) with
             | some keyValue =>
               if truthy keyValue then "%" ++ jsonStringify keyValue ++ "%" else "%"
             | none => "%")
          | none => "%"))
  | _, _ => "%"

/-- The ExclusiveStartKey handling shared by handleQuery
(dynamodb-handler.ts lines 304-312) and handleScan (lines 351-358): when a
start-key string is supplied and some fetched row's item_key equals it,
drop every row up to and including that one; otherwise keep everything. -/
def postStartRecords (results : List Rec) (startKey : Option String) : List Rec :=
  match startKey with
  | none => results
  | some sk =>
    match results.findIdx? (fun r => r.key == sk) with
    | some i => results.drop (i + 1)
    | none => results

/-- handleQuery (dynamodb-handler.ts lines 262-337).  The start key is the
derived key of ExclusiveStartKey; ScannedCount is taken before the limit
truncation; the limit truncates when it is truthy and the remaining item
count is greater than or equal to it, in which case LastEvaluatedKey is
the extracted key of the last returned item. -/
def handleQuery (db : DB) (tableName : String) (kce : Option String)
    (exprValues : Option ItemObj) (_exprNames : Option AttrNames)
    (limit : Option Nat) (esk : Option ItemObj) : QueryResponse :=
  let results := queryItems db tableName (querySearchPattern kce exprValues)
  let kept := postStartRecords results (esk.map generateItemKey)
  let items := kept.map (·.data)
  let scannedCount := items.length
  let step : List ItemObj × Bool :=
    match limit with
    | some l => if 0 < l ∧ l ≤ items.length then (items.take l, true) else (items, false)
    | none => (items, false)
  { Items := step.1
    Count := step.1.length
    ScannedCount := scannedCount
    LastEvaluatedKey := if step.2 then step.1.getLast?.map extractKeyFromItem else none }

/-- handleScan (dynamodb-handler.ts lines 339-382).  The start key is the
verbatim JSON.stringify of ExclusiveStartKey (not the derived key); the
limit truncates only when the remaining item count is strictly greater
than it; ScannedCount is read from the already-truncated list, so it
always equals Count. -/
def handleScan (db : DB) (tableName : String) (limit : Option Nat)
    (esk : Option ItemObj) : QueryResponse :=
  let results := scanItems db tableName
  let kept := postStartRecords results (esk.map stringifyObj)
  let items := kept.map (·.data)
  let step : List ItemObj × Bool :=
    match limit with
    | some l => if 0 < l ∧ l < items.length then (items.take l, true) else (items, false)
    | none => (items, false)
  { Items := step.1
    Count := step.1.length
    ScannedCount := step.1.length
    LastEvaluatedKey := if step.2 then step.1.getLast?.map extractKeyFromItem else none }

/-- One member of the TransactItems array.  The handler destructures only
the fields below from each sub-operation; a ConditionExpression (and its
value map), legal on the wire for every sub-operation, is carried here so
that theorems can quantify over requests that contain one. -/
inductive TransactItem where
  | put (tableName : String) (item : ItemObj)
      (conditionExpression : Option String) (conditionValues : Option ItemObj) : TransactItem
  | update (tableName : String) (key : ItemObj) (updateExpression : Option String)
      (exprValues : Option ItemObj) (exprNames : Option AttrNames)
      (conditionExpression : Option String) : TransactItem
  | delete (tableName : String) (key : ItemObj)
      (conditionExpression : Option String) : TransactItem
  deriving Repr, DecidableEq

/-- One iteration of the loop in handleTransactWrite (dynamodb-handler.ts
lines 403-449): Put upserts under the derived key with fresh timestamps,
Update silently skips a missing row and otherwise applies the SET
assignments, Delete removes the row.  No field named ConditionExpression
is ever read. -/
def applyTransactItem (now : Nat) (db : DB) : TransactItem → DB
  | .put t item _ _ => putItem db t (generateItemKey item) item now now
  | .update t key updExpr vals names _ =>
    let k := generateItemKey key
    (match getItem db t k with
     | some existing => putItem db t k (applySetAssignments existing.data updExpr names vals) now now
     | none => db)
  | .delete t key _ => deleteItem db t (generateItemKey key)

/-- handleTransactWrite (dynamodb-handler.ts lines 399-457): apply the
sub-operations in order inside one storage transaction and answer with an
empty success body (there is no failure path). -/
def handleTransactWrite (db : DB) (transactItems : List TransactItem) (now : Nat) : DB :=
  transactItems.foldl (applyTransactItem now) db

/-- The sub-operation with its condition expression removed. -/
def eraseCondition : TransactItem → TransactItem
  | .put t item _ _ => .put t item none none
  | .update t key e v n _ => .update t key e v n none
  | .delete t key _ => .delete t key none

/-- Modelled from the spec: condition-expression evaluation is described
in sections 4.3 and 4.5 and the glossary (a boolean guard over attribute
existence and equality that must hold for a write to take effect) but no
code for it exists in the repository.  This definition follows the spec
wording with the two operator families in scope: attribute_exists and
attribute_not_exists applied to an attribute name, and equality between an
attribute and a value placeholder resolved in the supplied value map.  It
is used only to state the claim about conditional transactional writes. -/
def specConditionHolds (existing : Option ItemObj) (expr : String)
    (exprValues : Option ItemObj) : Bool :=
  let e := trimChars expr.data
  let notExistsTag := "attribute_not_exists(".data
  let existsTag := "attribute_exists(".data
  if notExistsTag.isPrefixOf e && e.getLast? == some ')' then
    let attr := String.mk ((e.drop notExistsTag.length).dropLast)
    match existing with
    | none => true
    | some doc => !(getField doc attr).isSome
  else if existsTag.isPrefixOf e && e.getLast? == some ')' then
    let attr := String.mk ((e.drop existsTag.length).dropLast)
    match existing with
    | none => false
    | some doc => (getField doc attr).isSome
  else
    match splitOnChar '=' e with
    | [lhs, rhs] =>
      let attr := String.mk (trimChars lhs)
      let valueKey := String.mk (trimChars rhs)
      (match exprValues with
       | some vm =>
         (match getField vm valueKey, existing with
          | some v, some doc => getField doc attr == some v
          | _, _ => false)
       | none => false)
    | _ => false

/-- Concrete composite-key documents and rows used by the concrete
theorems below. -/
def docPB : ItemObj := [("$p", .str "a"), ("$s", .str "b")]

def docPC : ItemObj := [("$p", .str "a"), ("$s", .str "c")]

def docPD : ItemObj := [("$p", .str "a"), ("$s", .str "d")]

def recPB : Rec := ⟨"t", generateItemKey docPB, docPB, 0, 0⟩

def recPC : Rec := ⟨"t", generateItemKey docPC, docPC, 0, 0⟩

def recPD : Rec := ⟨"t", generateItemKey docPD, docPD, 0, 0⟩

/-- Concrete simple-key documents and rows. -/
def docIdA : ItemObj := [("id", .str "a")]

def docIdA2 : ItemObj := [("id", .str "a"), ("x", .num 1)]

def recIdA : Rec := ⟨"t", generateItemKey docIdA, docIdA, 0, 0⟩

theorem find?_filter_not_self (db : DB) (t k : String) :
    (db.filter fun r => !recMatches t k r).find? (recMatches t k) = none := by
  rw [List.find?_eq_none]
  intro r hr
  have h := (List.mem_filter.mp hr).2
  intro hc
  rw [hc] at h
  simp at h

theorem getItem_putItem_self (db : DB) (t k : String) (d : ItemObj) (c u : Nat) :
    getItem (putItem db t k d c u) t k = some ⟨t, k, d, c, u⟩ := by
  simp only [getItem, putItem, List.find?_append, find?_filter_not_self, Option.none_or]
  simp [List.find?, recMatches]

theorem filter_putItem_self (db : DB) (t k : String) (d : ItemObj) (c u : Nat) :
    (putItem db t k d c u).filter (recMatches t k) = [⟨t, k, d, c, u⟩] := by
  simp only [putItem, List.filter_append]
  have h1 : (db.filter fun r => !recMatches t k r).filter (recMatches t k) = [] := by
    rw [List.filter_eq_nil_iff]
    intro r hr
    have h := (List.mem_filter.mp hr).2
    intro hc
    rw [hc] at h
    simp at h
  rw [h1]
  simp [List.filter, recMatches]

theorem findIdx?_of_all_false {α : Type} (p : α → Bool) :
    ∀ l : List α, (∀ x ∈ l, p x = false) → l.findIdx? p = none := by
  intro l
  induction l with
  | nil => intro _; rfl
  | cons x xs ih =>
      intro h
      have hx : p x = false := h x (List.mem_cons_self x xs)
      have hxs := ih (fun y hy => h y (List.mem_cons_of_mem x hy))
      simp [List.findIdx?_cons, List.findIdx?_succ, hx, hxs]

theorem findIdx?_append_decomp {α : Type} (p : α → Bool) (pre post : List α) (mid : α)
    (hpre : ∀ x ∈ pre, p x = false) (hmid : p mid = true) :
    (pre ++ mid :: post).findIdx? p = some pre.length := by
  induction pre with
  | nil => simp [List.findIdx?_cons, hmid]
  | cons x xs ih =>
      have hx : p x = false := hpre x (List.mem_cons_self x xs)
      have hxs := ih (fun y hy => hpre y (List.mem_cons_of_mem x hy))
      simp [List.findIdx?_cons, List.findIdx?_succ, hx, hxs]

theorem postStartRecords_no_match (results : List Rec) (sk : String)
    (h : ∀ r ∈ results, (r.key == sk) = false) :
    postStartRecords results (some sk) = results := by
  simp only [postStartRecords, findIdx?_of_all_false _ results h]

theorem postStartRecords_decomp (pre post : List Rec) (mid : Rec) (sk : String)
    (hpre : ∀ r ∈ pre, (r.key == sk) = false) (hmid : (mid.key == sk) = true) :
    postStartRecords (pre ++ mid :: post) (some sk) = post := by
  simp only [postStartRecords, findIdx?_append_decomp _ pre post mid hpre hmid]
  have h2 : pre ++ mid :: post = (pre ++ [mid]) ++ post := by simp
  have hlen : pre.length + 1 = (pre ++ [mid]).length := by simp
  rw [h2, hlen, List.drop_left]

/-- C5: key derivation is a pure function of the recognized key attributes
only: two items that agree on the $p, $s and id attributes (whatever their
other attributes) derive the same key string, and a Put of B after a Put
of A under that shared key leaves exactly one record for the key in the
table, holding document B. -/
theorem generateItemKey_pure_put_overwrites
    (A B : ItemObj) (db : DB) (t : String) (t1 t2 : Nat)
    (hp : getField A "$p" = getField B "$p")
    (hs : getField A "$s" = getField B "$s")
    (hid : getField A "id" = getField B "id") :
    generateItemKey A = generateItemKey B ∧
    (handlePutItem (handlePutItem db t A t1) t B t2).filter
        (recMatches t (generateItemKey B)) =
      [⟨t, generateItemKey B, B, t2, t2⟩] := by
  constructor
  · simp only [generateItemKey, generateItemKeyObj, hp, hs, hid]
  · simpa only [handlePutItem] using
      filter_putItem_self (handlePutItem db t A t1) t (generateItemKey B) B t2 t2

theorem generateItemKey_pure_put_overwrites_witness :
    getField docIdA2 "$p" = getField docIdA "$p" ∧
    getField docIdA2 "$s" = getField docIdA "$s" ∧
    getField docIdA2 "id" = getField docIdA "id" ∧
    generateItemKey docIdA2 = generateItemKey docIdA ∧
    (handlePutItem (handlePutItem [] "t" docIdA2 1) "t" docIdA 2).filter
        (recMatches "t" (generateItemKey docIdA)) =
      [⟨"t", generateItemKey docIdA, docIdA, 2, 2⟩] := by
  refine ⟨by decide, by decide, by decide, ?_⟩
  have h := generateItemKey_pure_put_overwrites docIdA2 docIdA [] "t" 1 2
    (by decide) (by decide) (by decide)
  exact ⟨h.1, h.2⟩

/-- C6: PutItem followed by GetItem with a key descriptor carrying the
same key attributes returns a document equal to the item that was put. -/
theorem putItem_getItem_roundtrip
    (db : DB) (t : String) (item key : ItemObj) (now : Nat)
    (hp : getField key "$p" = getField item "$p")
    (hs : getField key "$s" = getField item "$s")
    (hid : getField key "id" = getField item "id") :
    handleGetItem (handlePutItem db t item now) t key = some item := by
  have hk : generateItemKey key = generateItemKey item := by
    simp only [generateItemKey, generateItemKeyObj, hp, hs, hid]
  simp [handleGetItem, handlePutItem, hk, getItem_putItem_self]

theorem putItem_getItem_roundtrip_witness :
    getField docIdA "$p" = getField docIdA2 "$p" ∧
    getField docIdA "$s" = getField docIdA2 "$s" ∧
    getField docIdA "id" = getField docIdA2 "id" ∧
    handleGetItem (handlePutItem [] "t" docIdA2 7) "t" docIdA = some docIdA2 :=
  ⟨by decide, by decide, by decide,
    putItem_getItem_roundtrip [] "t" docIdA2 docIdA 7 (by decide) (by decide) (by decide)⟩

/-- C7: an UpdateItem call whose derived key has no row in the table
answers ResourceNotFoundException and returns the store exactly as it was:
no record is created or modified. -/
theorem updateItem_absent_key_not_found
    (db : DB) (t : String) (key : ItemObj) (e : Option String)
    (vals : Option ItemObj) (nm : Option AttrNames) (now : Nat)
    (h : getItem db t (generateItemKey key) = none) :
    handleUpdateItem db t key e vals nm now = (db, .resourceNotFound) := by
  simp only [handleUpdateItem, h]

theorem updateItem_absent_key_not_found_witness :
    getItem [recPB] "t" (generateItemKey docIdA) = none ∧
    handleUpdateItem [recPB] "t" docIdA (some "SET x = :v") (some [(":v", .num 7)]) none 3 =
      ([recPB], .resourceNotFound) :=
  ⟨by decide,
    updateItem_absent_key_not_found [recPB] "t" docIdA (some "SET x = :v")
      (some [(":v", .num 7)]) none 3 (by decide)⟩

/-- C8: DeleteItem is idempotent: deleting a key with no row in the table
succeeds and leaves the store unchanged, and deleting twice in succession
leaves the store exactly as deleting once does. -/
theorem deleteItem_idempotent (db : DB) (t : String) (key : ItemObj) :
    (getItem db t (generateItemKey key) = none → handleDeleteItem db t key = db) ∧
    handleDeleteItem (handleDeleteItem db t key) t key = handleDeleteItem db t key := by
  constructor
  · intro h
    simp only [getItem] at h
    rw [List.find?_eq_none] at h
    simp only [handleDeleteItem, deleteItem]
    rw [List.filter_eq_self]
    intro r hr
    have := h r hr
    simp only [Bool.not_eq_true] at this ⊢
    rw [this]
    rfl
  · simp only [handleDeleteItem, deleteItem, List.filter_filter]
    congr 1
    funext r
    cases recMatches t (generateItemKey key) r <;> rfl

theorem deleteItem_idempotent_witness :
    handleDeleteItem [recPB] "t" docIdA = [recPB] ∧
    handleDeleteItem (handleDeleteItem [recPB, recIdA] "t" docIdA) "t" docIdA =
      handleDeleteItem [recPB, recIdA] "t" docIdA :=
  ⟨(deleteItem_idempotent [recPB] "t" docIdA).1 (by decide),
    (deleteItem_idempotent [recPB, recIdA] "t" docIdA).2⟩

/-- C3 counterexample: created-at is not preserved across an overwriting
PutItem.  A first Put under the simple key id a at time 1 stores
created_at 1; a second Put of the same item at time 2 leaves the record
with created_at 2, so the value set at first insertion is lost. -/
theorem createdAt_not_preserved_counterexample :
    (getItem (handlePutItem [] "t" docIdA 1) "t" (generateItemKey docIdA)).map Rec.created
      = some 1 ∧
    (getItem (handlePutItem (handlePutItem [] "t" docIdA 1) "t" docIdA 2) "t"
        (generateItemKey docIdA)).map Rec.created = some 2 := by
  decide

/-- C3 amended: both PutItem and a successful UpdateItem write the current
time into created_at as well as updated_at, so created-at always equals
the time of the most recent write under the key (it is set at first
insertion but not preserved by overwrites), and updated-at is set to the
write time on every write. -/
theorem createdAt_reset_on_every_write
    (db : DB) (t : String) (item key : ItemObj) (e : Option String)
    (vals : Option ItemObj) (nm : Option AttrNames) (now : Nat) :
    getItem (handlePutItem db t item now) t (generateItemKey item)
      = some ⟨t, generateItemKey item, item, now, now⟩ ∧
    (∀ r, getItem db t (generateItemKey key) = some r →
      getItem (handleUpdateItem db t key e vals nm now).1 t (generateItemKey key)
        = some ⟨t, generateItemKey key,
                 applySetAssignments r.data e nm vals, now, now⟩) := by
  constructor
  · simpa only [handlePutItem] using
      getItem_putItem_self db t (generateItemKey item) item now now
  · intro r hr
    simp only [handleUpdateItem, hr]
    exact getItem_putItem_self db t (generateItemKey key) _ now now

theorem createdAt_reset_on_every_write_witness :
    getItem (handlePutItem [] "t" docIdA 9) "t" (generateItemKey docIdA)
      = some ⟨"t", generateItemKey docIdA, docIdA, 9, 9⟩ ∧
    getItem [recIdA] "t" (generateItemKey docIdA) = some recIdA ∧
    getItem (handleUpdateItem [recIdA] "t" docIdA (some "SET x = :v")
        (some [(":v", .num 7)]) none 9).1 "t" (generateItemKey docIdA)
      = some ⟨"t", generateItemKey docIdA,
               applySetAssignments recIdA.data (some "SET x = :v") none
                 (some [(":v", .num 7)]), 9, 9⟩ := by
  refine ⟨?_, by decide, ?_⟩
  · exact (createdAt_reset_on_every_write [] "t" docIdA docIdA none none none 9).1
  · exact (createdAt_reset_on_every_write [recIdA] "t" docIdA docIdA
      (some "SET x = :v") (some [(":v", .num 7)]) none 9).2 recIdA (by decide)

/-- C2 counterexample: a TransactWriteItems batch whose single Put carries
the condition attribute_not_exists(id) while a record with that id is
already stored: the condition (in the spec's existence semantics, applied
to the stored document under the target key) evaluates false, yet the
batch still mutates the store instead of being rejected with the store
left unchanged. -/
theorem transactWrite_condition_not_evaluated_counterexample :
    specConditionHolds
        ((getItem [recIdA] "t" (generateItemKey docIdA2)).map Rec.data)
        "attribute_not_exists(id)" none = false ∧
    handleTransactWrite [recIdA]
        [.put "t" docIdA2 (some "attribute_not_exists(id)") none] 5 ≠ [recIdA] := by
  decide

/-- C2 amended: TransactWriteItems never reads condition expressions: a
batch produces exactly the same store as the same batch with every
condition expression removed, and every sub-operation's mutation is always
applied (there is no ConditionalCheckFailed path in the handler). -/
theorem transactWrite_ignores_conditions (db : DB) (items : List TransactItem) (now : Nat) :
    handleTransactWrite db (items.map eraseCondition) now =
      handleTransactWrite db items now := by
  induction items generalizing db with
  | nil => rfl
  | cons x xs ih =>
      have hx : applyTransactItem now db (eraseCondition x) = applyTransactItem now db x := by
        cases x <;> rfl
      simpa only [handleTransactWrite, List.map_cons, List.foldl_cons, hx] using
        ih (applyTransactItem now db x)

/-- C1 counterexample: Scan reads ScannedCount from the already-truncated
item list.  Over a table of three records a Scan with limit 2 answers
Count 2 and ScannedCount 2, although three items were considered before
truncation, so ScannedCount is not strictly greater than Count when the
limit truncates a larger remaining set. -/
theorem scan_scannedCount_equals_count_counterexample :
    (handleScan [recPB, recPC, recPD] "t" none none).Items.length = 3 ∧
    (handleScan [recPB, recPC, recPD] "t" (some 2) none).Count = 2 ∧
    (handleScan [recPB, recPC, recPD] "t" (some 2) none).ScannedCount = 2 := by
  decide

/-- C1 amended: for Query, Count is the number of returned items,
ScannedCount is the post-start-key pre-limit item count (the item count of
the same call without a limit) and is strictly greater than Count whenever
the limit truncates a larger remaining set; for Scan, ScannedCount is
computed after truncation and therefore always equals Count. -/
theorem query_scan_count_semantics
    (db : DB) (t : String) (kce : Option String) (vals : Option ItemObj)
    (nm : Option AttrNames) (l : Nat) (esk : Option ItemObj)
    (limit : Option Nat) (esk2 : Option ItemObj)
    (hl : 1 ≤ l) :
    ((handleQuery db t kce vals nm (some l) esk).Count
        = (handleQuery db t kce vals nm (some l) esk).Items.length ∧
     (handleQuery db t kce vals nm (some l) esk).ScannedCount
        = (handleQuery db t kce vals nm none esk).Items.length ∧
     (l < (handleQuery db t kce vals nm none esk).Items.length →
        (handleQuery db t kce vals nm (some l) esk).Count
          < (handleQuery db t kce vals nm (some l) esk).ScannedCount)) ∧
    (handleScan db t limit esk2).ScannedCount = (handleScan db t limit esk2).Count := by
  refine ⟨⟨rfl, rfl, ?_⟩, rfl⟩
  intro h
  simp only [handleQuery] at h ⊢
  rw [if_pos ⟨hl, Nat.le_of_lt h⟩]
  simpa [List.length_take, Nat.min_eq_left (Nat.le_of_lt h)] using h

theorem query_scan_count_semantics_witness :
    1 ≤ 2 ∧
    (handleQuery [recPB, recPC, recPD] "t" (some "#p = :pk")
        (some [(":pk", JsonValue.str "a")]) none (some 2) none).Count
      < (handleQuery [recPB, recPC, recPD] "t" (some "#p = :pk")
          (some [(":pk", JsonValue.str "a")]) none (some 2) none).ScannedCount :=
  ⟨by decide,
    (query_scan_count_semantics [recPB, recPC, recPD] "t" (some "#p = :pk")
        (some [(":pk", JsonValue.str "a")]) none 2 none none none
        (by decide)).1.2.2 (by decide)⟩

/-- C4 counterexample: when the remaining result size equals the limit,
Scan returns everything but no LastEvaluatedKey.  Over a table of one
record a Scan with limit 1 has a remaining size of 1, greater than or
equal to the limit, yet LastEvaluatedKey is absent, contradicting the
claimed greater-or-equal truncation rule for Scan. -/
theorem scan_limit_boundary_counterexample :
    (handleScan [recPB] "t" none none).Items.length = 1 ∧
    (handleScan [recPB] "t" (some 1) none).Items.length = 1 ∧
    (handleScan [recPB] "t" (some 1) none).LastEvaluatedKey = none := by
  decide

/-- C4 amended: with a limit of at least 1 and writing full for the
post-start-key item list (the items of the same call without a limit),
Query truncates exactly when the remaining size is greater than OR EQUAL
to the limit, while Scan truncates only when the remaining size is
STRICTLY greater than the limit; in the truncating case both return
exactly limit items and populate LastEvaluatedKey from the key attributes
of the last returned item, and otherwise both return everything with no
LastEvaluatedKey.  In particular a Scan whose remaining size equals the
limit returns no continuation key. -/
theorem query_scan_limit_truncation
    (db : DB) (t : String) (kce : Option String) (vals : Option ItemObj)
    (nm : Option AttrNames) (l : Nat) (esk : Option ItemObj) (hl : 1 ≤ l) :
    ((l ≤ (handleQuery db t kce vals nm none esk).Items.length →
        (handleQuery db t kce vals nm (some l) esk).Items
            = (handleQuery db t kce vals nm none esk).Items.take l ∧
        (handleQuery db t kce vals nm (some l) esk).Items.length = l ∧
        (handleQuery db t kce vals nm (some l) esk).LastEvaluatedKey
            = ((handleQuery db t kce vals nm none esk).Items.take l).getLast?.map
                extractKeyFromItem) ∧
     ((handleQuery db t kce vals nm none esk).Items.length < l →
        (handleQuery db t kce vals nm (some l) esk).Items
            = (handleQuery db t kce vals nm none esk).Items ∧
        (handleQuery db t kce vals nm (some l) esk).LastEvaluatedKey = none)) ∧
    ((l < (handleScan db t none esk).Items.length →
        (handleScan db t (some l) esk).Items = (handleScan db t none esk).Items.take l ∧
        (handleScan db t (some l) esk).Items.length = l ∧
        (handleScan db t (some l) esk).LastEvaluatedKey
            = ((handleScan db t none esk).Items.take l).getLast?.map extractKeyFromItem) ∧
     ((handleScan db t none esk).Items.length ≤ l →
        (handleScan db t (some l) esk).Items = (handleScan db t none esk).Items ∧
        (handleScan db t (some l) esk).LastEvaluatedKey = none)) := by
  refine ⟨⟨?_, ?_⟩, ?_, ?_⟩
  · intro h
    simp only [handleQuery] at h ⊢
    rw [if_pos ⟨hl, h⟩]
    exact ⟨rfl, by simpa [List.length_take] using Nat.min_eq_left h, rfl⟩
  · intro h
    simp only [handleQuery] at h ⊢
    rw [if_neg (fun hc => Nat.lt_irrefl l (Nat.lt_of_le_of_lt hc.2 h))]
    exact ⟨rfl, rfl⟩
  · intro h
    simp only [handleScan] at h ⊢
    rw [if_pos ⟨hl, h⟩]
    exact ⟨rfl, by simpa [List.length_take] using Nat.min_eq_left (Nat.le_of_lt h), rfl⟩
  · intro h
    simp only [handleScan] at h ⊢
    rw [if_neg (fun hc => Nat.lt_irrefl l (Nat.lt_of_lt_of_le hc.2 h))]
    exact ⟨rfl, rfl⟩

theorem query_scan_limit_truncation_witness :
    1 ≤ 2 ∧
    (handleQuery [recPB, recPC, recPD] "t" none none none (some 2) none).Items.length = 2 ∧
    (handleScan [recPB, recPC, recPD] "t" (some 2) none).LastEvaluatedKey
        = ((handleScan [recPB, recPC, recPD] "t" none none).Items.take 2).getLast?.map
            extractKeyFromItem :=
  ⟨by decide,
    ((query_scan_limit_truncation [recPB, recPC, recPD] "t" none none none 2 none
        (by decide)).1.1 (by decide)).2.1,
    ((query_scan_limit_truncation [recPB, recPC, recPD] "t" none none none 2 none
        (by decide)).2.1 (by decide)).2.2⟩

/-- C9 counterexample: Scan matches the start key by the verbatim
serialization of the supplied ExclusiveStartKey object, not by its derived
key.  With the composite-key object supplied in sort-then-partition field
order, its derived key equals the stored key of the first record, so the
claim requires that record (and nothing else) to be dropped, leaving one
item; the Scan instead returns both records because the verbatim
serialization matches no stored key. -/
theorem scan_startKey_not_derived_counterexample :
    generateItemKey [("$s", .str "b"), ("$p", .str "a")] = recPB.key ∧
    (handleScan [recPB, recPC] "t" none
        (some [("$s", .str "b"), ("$p", .str "a")])).Items = [docPB, docPC] := by
  decide

/-- C9 amended: on the key-ordered fetched row list, both Query and Scan
drop every record up to and including the first record whose stored key
equals the start-key string, and skip nothing when no stored key equals
it; but the start-key string is the derived key of ExclusiveStartKey for
Query and the verbatim JSON serialization of ExclusiveStartKey for Scan
(so for Scan a start key that is equivalent under key derivation but not
byte-identical matches nothing). -/
theorem query_scan_startKey_drop
    (db : DB) (t : String) (kce : Option String) (vals : Option ItemObj)
    (nm : Option AttrNames) (esk : ItemObj) (pre post : List Rec) (mid : Rec) :
    ((queryItems db t (querySearchPattern kce vals) = pre ++ mid :: post →
        (∀ r ∈ pre, (r.key == generateItemKey esk) = false) →
        (mid.key == generateItemKey esk) = true →
        (handleQuery db t kce vals nm none (some esk)).Items
          = post.map (fun r => r.data)) ∧
     ((∀ r ∈ queryItems db t (querySearchPattern kce vals),
          (r.key == generateItemKey esk) = false) →
        (handleQuery db t kce vals nm none (some esk)).Items
          = (queryItems db t (querySearchPattern kce vals)).map (fun r => r.data))) ∧
    ((scanItems db t = pre ++ mid :: post →
        (∀ r ∈ pre, (r.key == stringifyObj esk) = false) →
        (mid.key == stringifyObj esk) = true →
        (handleScan db t none (some esk)).Items = post.map (fun r => r.data)) ∧
     ((∀ r ∈ scanItems db t, (r.key == stringifyObj esk) = false) →
        (handleScan db t none (some esk)).Items
          = (scanItems db t).map (fun r => r.data))) := by
  refine ⟨⟨?_, ?_⟩, ?_, ?_⟩
  · intro hdec hpre hmid
    simp only [handleQuery, Option.map_some', hdec,
      postStartRecords_decomp pre post mid _ hpre hmid]
  · intro hall
    simp only [handleQuery, Option.map_some', postStartRecords_no_match _ _ hall]
  · intro hdec hpre hmid
    simp only [handleScan, Option.map_some', hdec,
      postStartRecords_decomp pre post mid _ hpre hmid]
  · intro hall
    simp only [handleScan, Option.map_some', postStartRecords_no_match _ _ hall]

theorem query_scan_startKey_drop_witness :
    (handleQuery [recPB, recPC] "t" none none none none (some docPB)).Items = [docPC] ∧
    (handleScan [recPB, recPC] "t" none (some docPB)).Items = [docPC] :=
  ⟨(query_scan_startKey_drop [recPB, recPC] "t" none none none docPB [] [recPC] recPB).1.1
      (by decide) (by decide) (by decide),
    (query_scan_startKey_drop [recPB, recPC] "t" none none none docPB [] [recPC] recPB).2.1
      (by decide) (by decide) (by decide)⟩

theorem getField_cons (a : String) (b : JsonValue) (tl : ItemObj) (x : String) :
    getField ((a, b) :: tl) x = if a == x then some b else getField tl x := by
  cases h : (a == x) <;> simp [getField, List.find?_cons, h]

theorem getField_filter_ne (vm : ItemObj) (k x : String) :
    getField (vm.filter fun p => !(p.1 == k)) x
      = if x == k then none else getField vm x := by
  induction vm with
  | nil => by_cases h : x = k <;> simp [getField, h]
  | cons hd tl ih =>
      obtain ⟨hk, hv⟩ := hd
      by_cases h1 : hk = k <;> by_cases h2 : x = k <;> by_cases h3 : hk = x <;>
        simp_all [getField_cons, List.filter_cons]

theorem getField_map_replace_ne (o : ItemObj) (n : String) (v : JsonValue) (x : String)
    (hx : ¬ x = n) :
    getField (o.map fun p => if p.1 == n then (n, v) else p) x = getField o x := by
  induction o with
  | nil => rfl
  | cons hd tl ih =>
      obtain ⟨hk, hv⟩ := hd
      by_cases h1 : hk = n <;> by_cases h3 : hk = x <;>
        simp_all [getField_cons, List.map_cons]

theorem getField_map_replace_eq (o : ItemObj) (n : String) (v : JsonValue)
    (hany : o.any (fun p => p.1 == n) = true) :
    getField (o.map fun p => if p.1 == n then (n, v) else p) n = some v := by
  induction o with
  | nil => simp at hany
  | cons hd tl ih =>
      obtain ⟨hk, hv⟩ := hd
      by_cases h1 : hk = n
      · subst h1
        simp [getField_cons]
      · have htl : tl.any (fun p => p.1 == n) = true := by
          simpa [List.any_cons, h1] using hany
        simpa [getField_cons, h1] using ih htl

theorem getField_append_single (o : ItemObj) (n : String) (v : JsonValue) (x : String)
    (hnone : o.any (fun p => p.1 == n) = false) :
    getField (o ++ [(n, v)]) x = if x == n then some v else getField o x := by
  induction o with
  | nil =>
      by_cases h : x = n
      · subst h; simp [getField_cons, getField]
      · simp [getField_cons, getField, h, Ne.symm h]
  | cons hd tl ih =>
      obtain ⟨hk, hv⟩ := hd
      by_cases h1 : hk = n <;> by_cases h2 : x = n <;> by_cases h3 : hk = x <;>
        simp_all [getField_cons, List.any_cons, List.cons_append]
      all_goals exact ih hnone

theorem getField_setAttr (o : ItemObj) (n : String) (v : JsonValue) (x : String) :
    getField (setAttr o n v) x = if x == n then some v else getField o x := by
  cases hany : (o.any fun p => p.1 == n) with
  | true =>
      have hset : setAttr o n v = o.map fun p => if p.1 == n then (n, v) else p := by
        unfold setAttr; rw [hany]; simp
      rw [hset]
      by_cases hx : x = n
      · subst hx
        rw [getField_map_replace_eq o x v hany]
        simp
      · rw [getField_map_replace_ne o n v x hx]
        simp [hx]
  | false =>
      have hset : setAttr o n v = o ++ [(n, v)] := by
        unfold setAttr; rw [hany]; simp
      rw [hset]
      exact getField_append_single o n v x hany

theorem applyAssignment_cases (nm : Option AttrNames) (vals : Option ItemObj)
    (item : ItemObj) (a : List Char) :
    applyAssignment nm vals item a = item ∨
    ∃ n v, truthy v = true ∧ applyAssignment nm vals item a = setAttr item n v := by
  simp only [applyAssignment]
  cases hsp : splitOnChar '=' (trimChars a) with
  | nil => exact Or.inl rfl
  | cons p0 rest =>
      cases rest with
      | nil => exact Or.inl rfl
      | cons p1 rest2 =>
          cases rest2 with
          | cons q qs => exact Or.inl rfl
          | nil =>
              by_cases hemp : (p0.isEmpty || p1.isEmpty) = true
              · exact Or.inl (by simp [hemp])
              · cases vals with
                | none => exact Or.inl (by simp [hemp])
                | some vm =>
                    cases hg : getField vm (String.mk (trimChars p1)) with
                    | none => exact Or.inl (by simp [hemp, hg])
                    | some v =>
                        by_cases htr : truthy v = true
                        · right
                          simp only [hemp, Bool.false_eq_true, if_false, hg, htr, if_true]
                          exact ⟨_, v, htr, rfl⟩
                        · exact Or.inl (by simp [hemp, hg, htr])

theorem applyAssignment_changed (nm : Option AttrNames) (vals : Option ItemObj)
    (item : ItemObj) (a : List Char) (x : String)
    (h : getField (applyAssignment nm vals item a) x ≠ getField item x) :
    ∃ w, getField (applyAssignment nm vals item a) x = some w ∧ truthy w = true := by
  rcases applyAssignment_cases nm vals item a with hid | ⟨n, v, hv, hset⟩
  · rw [hid] at h
    exact absurd rfl h
  · rw [hset] at h ⊢
    rw [getField_setAttr] at h ⊢
    by_cases hx : (x == n) = true
    · rw [if_pos hx]
      exact ⟨v, rfl, hv⟩
    · rw [if_neg hx] at h
      exact absurd rfl h

theorem foldl_applyAssignment_changed (nm : Option AttrNames) (vals : Option ItemObj) :
    ∀ (asgs : List (List Char)) (item : ItemObj) (x : String),
      getField (asgs.foldl (applyAssignment nm vals) item) x ≠ getField item x →
      ∃ w, getField (asgs.foldl (applyAssignment nm vals) item) x = some w ∧ truthy w = true := by
  intro asgs
  induction asgs with
  | nil => intro item x h; exact absurd rfl h
  | cons a as ih =>
      intro item x h
      rw [List.foldl_cons] at h ⊢
      by_cases heq : getField (as.foldl (applyAssignment nm vals) (applyAssignment nm vals item a)) x
          = getField (applyAssignment nm vals item a) x
      · rw [heq] at h ⊢
        exact applyAssignment_changed nm vals item a x h
      · exact ih (applyAssignment nm vals item a) x heq

theorem applySetAssignments_changed (item : ItemObj) (e : Option String)
    (nm : Option AttrNames) (vals : Option ItemObj) (x : String)
    (h : getField (applySetAssignments item e nm vals) x ≠ getField item x) :
    ∃ w, getField (applySetAssignments item e nm vals) x = some w ∧ truthy w = true := by
  cases e with
  | none => exact absurd rfl h
  | some s =>
      simp only [applySetAssignments] at h ⊢
      by_cases hs : s = ""
      · subst hs
        simp at h
      · have hb : (s == "") = false := beq_false_of_ne hs
        simp only [hb, Bool.false_eq_true, if_false] at h ⊢
        cases hcap : findSetCapture s.data with
        | none =>
            rw [hcap] at h
            exact absurd rfl h
        | some cap =>
            rw [hcap] at h
            exact foldl_applyAssignment_changed nm vals (splitOnChar ',' cap) item x h

theorem applyAssignment_erase (nm : Option AttrNames) (vals : ItemObj) (k : String)
    (v : JsonValue) (hv : getField vals k = some v) (hfalsy : truthy v = false)
    (item : ItemObj) (a : List Char) :
    applyAssignment nm (some (vals.filter fun p => !(p.1 == k))) item a
      = applyAssignment nm (some vals) item a := by
  simp only [applyAssignment]
  cases hsp : splitOnChar '=' (trimChars a) with
  | nil => rfl
  | cons p0 rest =>
      cases rest with
      | nil => rfl
      | cons p1 rest2 =>
          cases rest2 with
          | cons q qs => rfl
          | nil =>
              by_cases hemp : (p0.isEmpty || p1.isEmpty) = true
              · simp [hemp]
              · by_cases hk : String.mk (trimChars p1) = k
                · have hging : getField (vals.filter fun p => !(p.1 == k))
                      (String.mk (trimChars p1)) = none := by
                    rw [hk, getField_filter_ne]
                    simp
                  have hgv : getField vals (String.mk (trimChars p1)) = some v := by
                    rw [hk]; exact hv
                  simp [hemp, hging, hgv, hfalsy]
                · have hb : (String.mk (trimChars p1) == k) = false := beq_false_of_ne hk
                  have hging : getField (vals.filter fun p => !(p.1 == k))
                      (String.mk (trimChars p1)) = getField vals (String.mk (trimChars p1)) := by
                    rw [getField_filter_ne, hb]
                    simp
                  simp [hemp, hging]

theorem foldl_applyAssignment_erase (nm : Option AttrNames) (vals : ItemObj) (k : String)
    (v : JsonValue) (hv : getField vals k = some v) (hfalsy : truthy v = false) :
    ∀ (asgs : List (List Char)) (item : ItemObj),
      asgs.foldl (applyAssignment nm (some (vals.filter fun p => !(p.1 == k)))) item
        = asgs.foldl (applyAssignment nm (some vals)) item := by
  intro asgs
  induction asgs with
  | nil => intro _; rfl
  | cons a as ih =>
      intro item
      rw [List.foldl_cons, List.foldl_cons,
        applyAssignment_erase nm vals k v hv hfalsy item a, ih]

theorem applySetAssignments_erase (item : ItemObj) (e : Option String)
    (nm : Option AttrNames) (vals : ItemObj) (k : String) (v : JsonValue)
    (hv : getField vals k = some v) (hfalsy : truthy v = false) :
    applySetAssignments item e nm (some vals)
      = applySetAssignments item e nm (some (vals.filter fun p => !(p.1 == k))) := by
  cases e with
  | none => rfl
  | some s =>
      simp only [applySetAssignments]
      by_cases hs : s = ""
      · simp [hs]
      · have hb : (s == "") = false := beq_false_of_ne hs
        simp only [hb, Bool.false_eq_true, if_false]
        cases hcap : findSetCapture s.data with
        | none => rfl
        | some cap =>
            exact (foldl_applyAssignment_erase nm vals k v hv hfalsy
              (splitOnChar ',' cap) item).symm

/-- C10: in UpdateItem and in transactional Update, a SET assignment whose
value placeholder resolves to a falsy value (false, 0, empty string or
null) is skipped exactly as if the placeholder were unresolved: the
evaluator gives the same document as with the placeholder entry removed
from the value map, both handlers give identical results with and without
such an entry, and any attribute the evaluator does change ends up with a
truthy value, so these operations can never set an attribute to a falsy
value. -/
theorem falsy_set_value_skipped
    (item : ItemObj) (e : Option String) (nm : Option AttrNames) (vals : ItemObj)
    (k : String) (v : JsonValue) (db : DB) (t : String) (key : ItemObj) (now : Nat)
    (cond : Option String)
    (hv : getField vals k = some v) (hfalsy : truthy v = false) :
    applySetAssignments item e nm (some vals)
      = applySetAssignments item e nm (some (vals.filter fun p => !(p.1 == k))) ∧
    (∀ x, getField (applySetAssignments item e nm (some vals)) x ≠ getField item x →
      ∃ w, getField (applySetAssignments item e nm (some vals)) x = some w ∧
        truthy w = true) ∧
    handleUpdateItem db t key e (some vals) nm now
      = handleUpdateItem db t key e (some (vals.filter fun p => !(p.1 == k))) nm now ∧
    handleTransactWrite db [.update t key e (some vals) nm cond] now
      = handleTransactWrite db
          [.update t key e (some (vals.filter fun p => !(p.1 == k))) nm cond] now := by
  refine ⟨applySetAssignments_erase item e nm vals k v hv hfalsy,
    fun x hx => applySetAssignments_changed item e nm (some vals) x hx, ?_, ?_⟩
  · simp only [handleUpdateItem]
    cases hgi : getItem db t (generateItemKey key) with
    | none => rfl
    | some existing =>
        dsimp only
        rw [applySetAssignments_erase existing.data e nm vals k v hv hfalsy]
  · simp only [handleTransactWrite, List.foldl_cons, List.foldl_nil, applyTransactItem]
    cases hgi : getItem db t (generateItemKey key) with
    | none => rfl
    | some existing =>
        dsimp only
        rw [applySetAssignments_erase existing.data e nm vals k v hv hfalsy]

theorem falsy_set_value_skipped_witness :
    getField [(":v", JsonValue.num 0)] ":v" = some (JsonValue.num 0) ∧
    truthy (JsonValue.num 0) = false ∧
    applySetAssignments docIdA (some "SET x = :v") none (some [(":v", JsonValue.num 0)])
      = applySetAssignments docIdA (some "SET x = :v") none
          (some ([(":v", JsonValue.num 0)].filter fun p => !(p.1 == ":v"))) :=
  ⟨by decide, by decide,
    (falsy_set_value_skipped docIdA (some "SET x = :v") none [(":v", .num 0)] ":v" (.num 0)
      [] "t" docIdA 0 none (by decide) (by decide)).1⟩
